import Mathlib

/-!
# Group envelope encryption (`crypto/crypto.go`)

A shallow embedding of the package `crypto`: the padding codec, the AES-CBC and
RSA-OAEP wrappers, the PEM key codec and the two envelope operations
`GroupEncrypt` and `GroupDecrypt`.

Conventions of the embedding.

* A Go `[]byte` and a Go `string` are both a list of bytes; the `nil` slice and
  the empty string are the empty list.
* A Go function that returns `(value, error)` returns a pair whose second
  component is `none` for a `nil` error.
* A run-time panic (nil dereference, failed type assertion, index or slice
  bound out of range, a panic raised by the standard library) is the outcome
  `Outcome.panic`.
* A Go pointer that may be `nil` is an `Option`.
* A Go `map[string]string` is an association list; the order of the list is
  the order in which `range` visits the entries.
* The Go standard library (`crypto/rand`, `crypto/cipher`, `crypto/rsa`,
  `crypto/x509`, `encoding/pem`, `encoding/base64`) is the parameter `Lib`.
  Whatever a theorem needs to know about it is a hypothesis of that theorem.
-/

namespace Crypto

/-- One octet. -/
abbrev Byte := Fin 256

/-- A Go `[]byte`, also used for a Go `string`. -/
abbrev Bytes := List Byte

/-- A Go `map[string]string`, in iteration order. -/
abbrev GoMap := List (Bytes × Bytes)

/-- Result of running a Go function: it returns a value or it panics. -/
inductive Outcome (α : Type) where
  | ok (a : α)
  | panic
  deriving DecidableEq

/-- Error values that the package can hand back to its caller. -/
inductive Err where
  /-- an error of `rand.Read` -/
  | entropy
  /-- `aes.KeySizeError(n)` of `aes.NewCipher` -/
  | keySize (n : Nat)
  /-- "ciphertext is not a multiple of the block size" -/
  | notBlockMultiple
  /-- "iv is wrong size" -/
  | ivSize
  /-- "Invalid mode '%s'" -/
  | invalidMode (mode : Bytes)
  /-- `base64.CorruptInputError` -/
  | base64
  /-- an error of `x509.ParsePKCS1PrivateKey` -/
  | pkcs1
  /-- an error of `rsa.EncryptOAEP` -/
  | oaepEncrypt
  /-- `rsa.ErrDecryption` of `rsa.DecryptOAEP` -/
  | oaepDecrypt
  deriving DecidableEq

/-- The Go type `pem.Block`, without headers. -/
structure Block where
  type : Bytes
  bytes : Bytes
  deriving DecidableEq

/-- What `x509.ParsePKIXPublicKey` can return in its `any` result: an RSA key
or a key of another algorithm. -/
inductive PKIXKey (Pub : Type) where
  | rsa (k : Pub)
  | other
  deriving DecidableEq

/-- The standard-library functions the package calls.

`Pub` and `Priv` are the non-nil values of `*rsa.PublicKey` and
`*rsa.PrivateKey`; `Rng` is the state of `rand.Reader`. A library function
that returns `(nil, err)` on failure has an `Option` result. -/
structure Lib where
  Rng : Type
  Pub : Type
  Priv : Type
  /-- the field `PublicKey` of a private key -/
  publicOf : Priv → Pub
  /-- `rand.Read(b)` with `len(b) = n`: the bytes written (byte `i` at index `i`), or an error -/
  randRead : Rng → Nat → Option (Nat → Byte) × Rng
  /-- `base64.StdEncoding.EncodeToString` -/
  b64Encode : Bytes → Bytes
  /-- `base64.StdEncoding.DecodeString`: the bytes decoded so far, and the error if any -/
  b64Decode : Bytes → Bytes × Option Err
  /-- the blocks a CBC encrypter for `key` and `iv` produces from `src` -/
  cbcEncrypt : (key iv src : Bytes) → Bytes
  /-- the blocks a CBC decrypter for `key` and `iv` produces from `src` -/
  cbcDecrypt : (key iv src : Bytes) → Bytes
  /-- `x509.MarshalPKCS1PrivateKey` -/
  marshalPKCS1 : Priv → Bytes
  /-- `x509.ParsePKCS1PrivateKey` -/
  parsePKCS1 : Bytes → Option Priv
  /-- `x509.MarshalPKIXPublicKey` -/
  marshalPKIX : Pub → Bytes
  /-- `x509.ParsePKIXPublicKey` -/
  parsePKIX : Bytes → Option (PKIXKey Pub)
  /-- `pem.EncodeToMemory` -/
  pemEncode : Block → Bytes
  /-- `pem.Decode`, first result: the block found, or `nil` -/
  pemDecode : Bytes → Option Block
  /-- `rsa.EncryptOAEP` with SHA-256 and the empty label -/
  encryptOAEP : Rng → Pub → Bytes → Option Bytes × Rng
  /-- `rsa.DecryptOAEP` with SHA-256 and the empty label -/
  decryptOAEP : Priv → Bytes → Option Bytes

/-- The Go type `Encrypted`. -/
structure Encrypted where
  Ciphertext : Bytes
  Mode : Bytes
  Inputs : GoMap
  Keys : GoMap
  deriving DecidableEq

/-- The string "aes-cbc-256+rsa". -/
def modeTag : Bytes := [97, 101, 115, 45, 99, 98, 99, 45, 50, 53, 54, 43, 114, 115, 97]

/-- The string "iv". -/
def ivName : Bytes := [105, 118]

/-- The string "RSA PRIVATE KEY". -/
def privateType : Bytes := [82, 83, 65, 32, 80, 82, 73, 86, 65, 84, 69, 32, 75, 69, 89]

/-- The string "RSA PUBLIC KEY". -/
def publicType : Bytes := [82, 83, 65, 32, 80, 85, 66, 76, 73, 67, 32, 75, 69, 89]

/-- Reading `m[k]`: the zero value (the empty string) when `k` is absent. -/
def mapGet : GoMap → Bytes → Bytes
  | [], _ => []
  | (k', v) :: rest, k => if k' = k then v else mapGet rest k

/-- The assignment `m[k] = v`. -/
def mapSet : GoMap → Bytes → Bytes → GoMap
  | [], k, v => [(k, v)]
  | (k', v') :: rest, k, v => if k' = k then (k, v) :: rest else (k', v') :: mapSet rest k v

/-- The keys of a map. -/
def mapKeys (m : GoMap) : List Bytes := m.map Prod.fst

/-- Two's-complement wrap of a 64-bit Go `int`. -/
def wrap64 (x : Int) : Int := (x + 2 ^ 63) % 2 ^ 64 - 2 ^ 63

/-- The conversion `byte(x)` of a non-negative `int`. -/
def toByte (x : Int) : Byte := ⟨x.toNat % 256, Nat.mod_lt _ (by decide)⟩

/-- The call `make([]byte, n)`. -/
def makeBytes (n : Nat) : Bytes := List.replicate n 0

/-- Source `RandomBytes`: a fresh buffer of `size` bytes filled by `rand.Read`. -/
def RandomBytes (L : Lib) (rng : L.Rng) (size : Nat) : (Bytes × Option Err) × L.Rng :=
  match L.randRead rng size with
  | (none, rng1) => (([], some Err.entropy), rng1)
  | (some f, rng1) => (((List.range size).map f, none), rng1)

/-- Source `Pad`. The remainder is Go's truncated `%`, which panics on a zero
divisor; `bytes.Repeat` panics on a negative count. -/
def Pad (src : Bytes) (blockSize : Int) : Outcome Bytes :=
  if blockSize = 0 then .panic
  else
    let padding := wrap64 (blockSize - Int.tmod (src.length : Int) blockSize)
    if padding < 0 then .panic
    else .ok (src ++ List.replicate padding.toNat (toByte padding))

/-- Source `UnPad`. Indexing `src[length-1]` panics on the empty slice, and the
slice expression panics when `length - unpadding` is negative. -/
def UnPad (src : Bytes) : Outcome Bytes :=
  let length := src.length
  match src.getLast? with
  | none => .panic
  | some b =>
    let unpadding := b.val
    if length < unpadding then .panic
    else .ok (src.take (length - unpadding))

/-- Source `Base64Encode`. -/
def Base64Encode (L : Lib) (input : Bytes) : Bytes := L.b64Encode input

/-- Source `Base64Decode`. -/
def Base64Decode (L : Lib) (input : Bytes) : Bytes × Option Err := L.b64Decode input

/-- The call `aes.NewCipher(key)`: the key must be 16, 24 or 32 bytes long. The
cipher block is represented by its key. -/
def aesNewCipher (key : Bytes) : Except Err Bytes :=
  if key.length = 16 ∨ key.length = 24 ∨ key.length = 32 then .ok key
  else .error (Err.keySize key.length)

/-- The AES block size, `aes.BlockSize`. -/
def aesBlockSize : Nat := 16

/-- The call `mode.CryptBlocks(dst, src)` of a CBC mode whose output for `src`
is `out`: it panics unless `src` is whole blocks and `dst` is at least as long,
and it updates `dst[:len(src)]` only. The result is the content of `dst`. -/
def CryptBlocks (out dst src : Bytes) : Outcome Bytes :=
  if src.length % aesBlockSize ≠ 0 then .panic
  else if dst.length < src.length then .panic
  else .ok ((List.range dst.length).map fun i =>
    if i < src.length then out.getD i 0 else dst.getD i 0)

/-- Content of a fresh buffer of `n` bytes after `out` has been written over it. -/
def written (out : Bytes) (n : Nat) : Bytes := (List.range n).map fun i => out.getD i 0

/-- Source `AESEncrypt`. `cipher.NewCBCEncrypter` panics when the IV is not one
block long. -/
def AESEncrypt (L : Lib) (rng : L.Rng) (plaintext key : Bytes) :
    Outcome ((Bytes × Bytes × Option Err) × L.Rng) :=
  match aesNewCipher key with
  | .error err => .ok (([], [], some err), rng)
  | .ok block =>
    match Pad plaintext aesBlockSize with
    | .panic => .panic
    | .ok paddedPlaintext =>
      let ciphertext := makeBytes paddedPlaintext.length
      match RandomBytes L rng aesBlockSize with
      | ((_, some err), rng1) => .ok (([], [], some err), rng1)
      | ((iv, none), rng1) =>
        if iv.length ≠ aesBlockSize then .panic
        else
          match CryptBlocks (L.cbcEncrypt block iv paddedPlaintext) ciphertext paddedPlaintext with
          | .panic => .panic
          | .ok ciphertext1 => .ok ((ciphertext1, iv, none), rng1)

/-- Source `AESDecrypt`. The IV has been checked by the time
`cipher.NewCBCDecrypter` is called, so that call does not panic. -/
def AESDecrypt (L : Lib) (ciphertext iv key : Bytes) : Outcome (Bytes × Option Err) :=
  match aesNewCipher key with
  | .error err => .ok ([], some err)
  | .ok block =>
    if ciphertext.length % aesBlockSize ≠ 0 then .ok ([], some Err.notBlockMultiple)
    else if iv.length ≠ aesBlockSize then .ok ([], some Err.ivSize)
    else
      let paddedPlaintext := makeBytes ciphertext.length
      match CryptBlocks (L.cbcDecrypt block iv ciphertext) paddedPlaintext ciphertext with
      | .panic => .panic
      | .ok paddedPlaintext1 =>
        match UnPad paddedPlaintext1 with
        | .panic => .panic
        | .ok plaintext => .ok (plaintext, none)

/-- Source `PemEncodeRSAPrivate`. -/
def PemEncodeRSAPrivate (L : Lib) (key : L.Priv) : Bytes :=
  let der := L.marshalPKCS1 key
  L.pemEncode { type := privateType, bytes := der }

/-- Source `PemEncodeRSAPublic`. -/
def PemEncodeRSAPublic (L : Lib) (key : L.Pub) : Bytes :=
  let der := L.marshalPKIX key
  L.pemEncode { type := publicType, bytes := der }

/-- Source `PemDecodeRSAPrivate`. The block returned by `pem.Decode` is used
unchecked: `b.Bytes` panics when it is `nil`. -/
def PemDecodeRSAPrivate (L : Lib) (input : Bytes) : Outcome (Option L.Priv × Option Err) :=
  match L.pemDecode input with
  | none => .panic
  | some b =>
    match L.parsePKCS1 b.bytes with
    | none => .ok (none, some Err.pkcs1)
    | some key => .ok (some key, none)

/-- Source `PemDecodeRSAPublic`. `b.Bytes` panics when the block is `nil`, and
the type assertion `pubKey.(*rsa.PublicKey)` panics when `pubKey` is `nil`
(the parse failed) or holds a key of another algorithm. -/
def PemDecodeRSAPublic (L : Lib) (input : Bytes) : Outcome (Option L.Pub × Option Err) :=
  match L.pemDecode input with
  | none => .panic
  | some b =>
    match L.parsePKIX b.bytes with
    | none => .panic
    | some PKIXKey.other => .panic
    | some (PKIXKey.rsa pubKey) => .ok (some pubKey, none)

/-- Source `RSAEncrypt`. `rsa.EncryptOAEP` dereferences the key and panics on a
`nil` one. -/
def RSAEncrypt (L : Lib) (rng : L.Rng) (plaintext : Bytes) (publicKey : Option L.Pub) :
    Outcome ((Bytes × Option Err) × L.Rng) :=
  match publicKey with
  | none => .panic
  | some pub =>
    match L.encryptOAEP rng pub plaintext with
    | (none, rng1) => .ok (([], some Err.oaepEncrypt), rng1)
    | (some c, rng1) => .ok ((c, none), rng1)

/-- Source `RSADecrypt`. `rsa.DecryptOAEP` dereferences the key and panics on a
`nil` one; on failure it returns a `nil` slice with the error. -/
def RSADecrypt (L : Lib) (ciphertext : Bytes) (privateKey : Option L.Priv) :
    Outcome (Bytes × Option Err) :=
  match privateKey with
  | none => .panic
  | some priv =>
    match L.decryptOAEP priv ciphertext with
    | none => .ok ([], some Err.oaepDecrypt)
    | some m => .ok (m, none)

/-- The loop `for id, publicKeyString := range publicKeys` of `GroupEncrypt`,
started with `encryptedKeys` as filled so far. The error of
`PemDecodeRSAPublic` is overwritten by that of `RSAEncrypt` before it is
looked at. The result is the error that ends the loop early, or the map. -/
def GroupEncrypt.loop (L : Lib) (key : Bytes) :
    List (Bytes × Bytes) → GoMap → L.Rng → Outcome (Except Err GoMap)
  | [], encryptedKeys, _ => .ok (.ok encryptedKeys)
  | (id, publicKeyString) :: rest, encryptedKeys, rng =>
    match PemDecodeRSAPublic L publicKeyString with
    | .panic => .panic
    | .ok (publicKey, _) =>
      match RSAEncrypt L rng key publicKey with
      | .panic => .panic
      | .ok ((_, some err), _) => .ok (.error err)
      | .ok ((encryptedKey, none), rng1) =>
        GroupEncrypt.loop L key rest (mapSet encryptedKeys id (Base64Encode L encryptedKey)) rng1

/-- Source `GroupEncrypt`. The error of the first `RandomBytes` is discarded. -/
def GroupEncrypt (L : Lib) (rng : L.Rng) (plaintext : Bytes) (publicKeys : GoMap) :
    Outcome (Option Encrypted × Option Err) :=
  let keySize := 32
  match RandomBytes L rng keySize with
  | ((key, _), rng1) =>
    match AESEncrypt L rng1 plaintext key with
    | .panic => .panic
    | .ok ((_, _, some err), _) => .ok (none, some err)
    | .ok ((ciphertext, iv, none), rng2) =>
      let inputs := mapSet [] ivName (Base64Encode L iv)
      match GroupEncrypt.loop L key publicKeys [] rng2 with
      | .panic => .panic
      | .ok (.error err) => .ok (none, some err)
      | .ok (.ok encryptedKeys) =>
        .ok (some { Ciphertext := Base64Encode L ciphertext, Mode := modeTag,
                    Inputs := inputs, Keys := encryptedKeys }, none)

/-- Source `GroupDecrypt`, for a non-nil `encrypted`. The errors of the three
`Base64Decode` calls are discarded, those of `PemDecodeRSAPrivate` and of
`RSADecrypt` are overwritten before they are looked at. -/
def GroupDecrypt (L : Lib) (encrypted : Encrypted) (keyID : Bytes) (privateKeyPem : Bytes) :
    Outcome (Bytes × Option Err) :=
  if encrypted.Mode ≠ modeTag then .ok ([], some (Err.invalidMode encrypted.Mode))
  else
    let ciphertext := (Base64Decode L encrypted.Ciphertext).1
    let iv := (Base64Decode L (mapGet encrypted.Inputs ivName)).1
    let encryptedKey := (Base64Decode L (mapGet encrypted.Keys keyID)).1
    match PemDecodeRSAPrivate L privateKeyPem with
    | .panic => .panic
    | .ok (privateKey, _) =>
      match RSADecrypt L encryptedKey privateKey with
      | .panic => .panic
      | .ok (key, _) =>
        match AESDecrypt L ciphertext iv key with
        | .panic => .panic
        | .ok (plaintext, err) => .ok (plaintext, err)

/-- A recipients map built from keypairs: each identifier with the
`PemEncodeRSAPublic` encoding of the public key of its keypair. -/
def recipientsMap (L : Lib) (R : List (Bytes × L.Priv)) : GoMap :=
  R.map fun r => (r.1, PemEncodeRSAPublic L (L.publicOf r.2))

/-! ## A small library instance

`demoLib` instantiates `Lib` with simple invertible maps in place of the real
codecs and ciphers, so that the definitions can be evaluated on concrete
inputs. Keys are single bytes; the public key of a private key is the same
byte. -/

/-- Text encoding of `demoLib`: every byte is preceded by a zero byte. -/
def demoEncode : Bytes → Bytes
  | [] => []
  | b :: rest => 0 :: b :: demoEncode rest

/-- Text decoding of `demoLib`: reads pairs `0, b`; at anything else it stops
with an error and returns the bytes decoded so far. -/
def demoDecode : Bytes → Bytes × Option Err
  | [] => ([], none)
  | [_] => ([], some Err.base64)
  | m :: b :: rest =>
    if m = 0 then (b :: (demoDecode rest).1, (demoDecode rest).2)
    else ([], some Err.base64)

/-- Key-wrap of `demoLib`: the key byte, one byte of randomness, the message. -/
def demoWrap (rng : Nat) (pub : Byte) (m : Bytes) : Option Bytes × Nat :=
  if 190 < m.length then (none, rng)
  else (some (pub :: toByte (rng : Int) :: m), rng + 1)

/-- Key-unwrap of `demoLib`: fails unless the first byte is the key byte. -/
def demoUnwrap (priv : Byte) : Bytes → Option Bytes
  | p :: _ :: m => if p = priv then some m else none
  | _ => none

/-- PEM decoding of `demoLib`: a first byte 1 or 2 opens a block. -/
def demoPemDecode : Bytes → Option Block
  | [] => none
  | t :: rest =>
    if t = 1 then some { type := privateType, bytes := rest }
    else if t = 2 then some { type := publicType, bytes := rest }
    else none

/-- PKIX parsing of `demoLib`: `[k, k]` is the RSA key `k`, another pair is a
key of another algorithm, anything else does not parse. -/
def demoParsePKIX : Bytes → Option (PKIXKey Byte)
  | [a, b] => if a = b then some (PKIXKey.rsa a) else some PKIXKey.other
  | _ => none

/-- PKCS1 parsing of `demoLib`: `[k]` is the private key `k`. -/
def demoParsePKCS1 : Bytes → Option Byte
  | [k] => some k
  | _ => none

/-- The library instance. -/
def demoLib : Lib where
  Rng := Nat
  Pub := Byte
  Priv := Byte
  publicOf := fun k => k
  randRead := fun rng n => (some (fun i => toByte ((rng + i : Nat) : Int)), rng + n)
  b64Encode := demoEncode
  b64Decode := demoDecode
  cbcEncrypt := fun key iv src => src.map fun x => x + (key.headD 0 + iv.headD 0)
  cbcDecrypt := fun key iv src => src.map fun x => x - (key.headD 0 + iv.headD 0)
  marshalPKCS1 := fun k => [k]
  parsePKCS1 := demoParsePKCS1
  marshalPKIX := fun k => [k, k]
  parsePKIX := demoParsePKIX
  pemEncode := fun blk => (if blk.type = privateType then 1 else 2) :: blk.bytes
  pemDecode := demoPemDecode
  encryptOAEP := demoWrap
  decryptOAEP := demoUnwrap

/-- The string "hi". -/
def demoPlain : Bytes := [104, 105]

/-- The identifier "a". -/
def idA : Bytes := [97]

/-- The identifier "b". -/
def idB : Bytes := [98]

/-- The identifier "c". -/
def idC : Bytes := [99]

/-- Two recipients, "a" with key 7 and "b" with key 9. -/
def demoRecipients : List (Bytes × Byte) := [(idA, 7), (idB, 9)]

/-- The content key that `demoLib` draws first from entropy state 0. -/
def demoKey : Bytes :=
  [0, 1, 2, 3, 4, 5, 6, 7, 8, 9, 10, 11, 12, 13, 14, 15,
   16, 17, 18, 19, 20, 21, 22, 23, 24, 25, 26, 27, 28, 29, 30, 31]

/-- The IV that `demoLib` draws next. -/
def demoIV : Bytes := [32, 33, 34, 35, 36, 37, 38, 39, 40, 41, 42, 43, 44, 45, 46, 47]

/-- The ciphertext of "hi" under `demoKey` and `demoIV` in `demoLib`. -/
def demoCiphertext : Bytes := [136, 137, 46, 46, 46, 46, 46, 46, 46, 46, 46, 46, 46, 46, 46, 46]

/-- The artifact `GroupEncrypt` returns in `demoLib` for "hi" and `demoRecipients`,
from entropy state 0. -/
def demoArtifact : Encrypted :=
  { Ciphertext := demoEncode demoCiphertext
    Mode := modeTag
    Inputs := [(ivName, demoEncode demoIV)]
    Keys := [(idA, demoEncode (7 :: 48 :: demoKey)), (idB, demoEncode (9 :: 49 :: demoKey))] }

/-! ## The padding codec -/

theorem wrap64_small (x : Int) (h1 : 0 ≤ x) (h2 : x ≤ 255) : wrap64 x = x := by
  unfold wrap64
  omega

theorem Pad_nat (data : Bytes) (n : Nat) (hn : 0 < n) (h : n ≤ 255) :
    Pad data (n : Int) = .ok (data ++ List.replicate (n - data.length % n)
      (toByte ((n - data.length % n : Nat) : Int))) := by
  have hr : data.length % n < n := Nat.mod_lt _ hn
  have htm : Int.tmod (data.length : Int) (n : Int) = ((data.length % n : Nat) : Int) := by
    rw [Int.tmod_eq_emod (by omega) (by omega)]
    norm_cast
  have hk : (n : Int) - ((data.length % n : Nat) : Int) = ((n - data.length % n : Nat) : Int) := by
    omega
  have hw : wrap64 ((n - data.length % n : Nat) : Int) = ((n - data.length % n : Nat) : Int) :=
    wrap64_small _ (by omega) (by omega)
  unfold Pad
  rw [if_neg (by omega)]
  simp only [htm, hk, hw]
  rw [if_neg (by omega)]
  simp

theorem toByte_val (k : Nat) (h : k ≤ 255) : (toByte (k : Int)).val = k := by
  unfold toByte
  simp
  omega

theorem UnPad_append_replicate (data : Bytes) (k : Nat) (b : Byte) (hk : 0 < k)
    (hb : b.val = k) : UnPad (data ++ List.replicate k b) = .ok data := by
  have hlast : (data ++ List.replicate k b).getLast? = some b := by
    rw [List.getLast?_append, List.getLast?_replicate, if_neg (by omega)]
    rfl
  unfold UnPad
  simp only [hlast, hb, List.length_append, List.length_replicate]
  rw [if_neg (by omega)]
  have : data.length + k - k = data.length := by omega
  rw [this, List.take_left' rfl]

theorem Pad_sixteen (data : Bytes) :
    Pad data 16 = .ok (data ++ List.replicate (16 - data.length % 16)
      (toByte ((16 - data.length % 16 : Nat) : Int))) := by
  have h := Pad_nat data 16 (by decide) (by decide)
  simp only [Nat.cast_ofNat] at h
  exact h

theorem UnPad_of_Pad_sixteen (data padded : Bytes) (h : Pad data 16 = .ok padded) :
    UnPad padded = .ok data := by
  have hr : data.length % 16 < 16 := Nat.mod_lt _ (by decide)
  rw [Pad_sixteen data] at h
  injection h with h
  subst h
  exact UnPad_append_replicate data _ _ (by omega) (toByte_val _ (by omega))

/-- C6. Padding round trip: for every byte sequence `data`, of any length,
`Pad(data, 16)` returns and `UnPad` of what it returns is `data`. -/
theorem UnPad_Pad (data : Bytes) :
    ∃ padded, Pad data 16 = .ok padded ∧ UnPad padded = .ok data :=
  ⟨_, Pad_sixteen data, UnPad_of_Pad_sixteen data _ (Pad_sixteen data)⟩

/-- C7. Definition of `Pad`: for a block size from 1 to 255, `Pad(data, blockSize)`
returns `data` followed by exactly `k` bytes of value `k`, where
`k = blockSize - len(data) mod blockSize`; so `1 ≤ k ≤ blockSize`, and `k = blockSize`
when `len(data)` is a multiple of `blockSize`. The length of `Pad(data, 16)` is a
positive multiple of 16 and at least `len(data) + 1`. -/
theorem Pad_spec (data : Bytes) (blockSize : Int) (h1 : 1 ≤ blockSize) (h2 : blockSize ≤ 255) :
    ∃ (k : Nat) (b : Byte),
      (k : Int) = blockSize - (data.length : Int) % blockSize ∧ b.val = k ∧
      1 ≤ k ∧ (k : Int) ≤ blockSize ∧
      ((data.length : Int) % blockSize = 0 → (k : Int) = blockSize) ∧
      Pad data blockSize = .ok (data ++ List.replicate k b) ∧
      ∃ p, Pad data 16 = .ok p ∧ 0 < p.length ∧ p.length % 16 = 0 ∧
        data.length + 1 ≤ p.length := by
  obtain ⟨n, rfl⟩ := Int.eq_ofNat_of_zero_le (by omega : 0 ≤ blockSize)
  have hn : 0 < n := by omega
  have hn2 : n ≤ 255 := by omega
  have hr : data.length % n < n := Nat.mod_lt _ hn
  have hr16 : data.length % 16 < 16 := Nat.mod_lt _ (by decide)
  have hcast : ((data.length : Int) % (n : Int)) = ((data.length % n : Nat) : Int) := by
    norm_cast
  refine ⟨n - data.length % n, toByte ((n - data.length % n : Nat) : Int), ?_, ?_, ?_, ?_, ?_,
    Pad_nat data n hn hn2, _, Pad_nat data 16 (by decide) (by decide), ?_, ?_, ?_⟩
  · rw [hcast]; omega
  · exact toByte_val _ (by omega)
  · omega
  · omega
  · rw [hcast]; intro h; omega
  · simp only [List.length_append, List.length_replicate]; omega
  · simp only [List.length_append, List.length_replicate]; omega
  · simp only [List.length_append, List.length_replicate]; omega

/-- The padding rule at a concrete input: block size 16 and the empty sequence. -/
theorem Pad_spec_witness :
    ∃ (k : Nat) (b : Byte),
      (k : Int) = 16 - (([] : Bytes).length : Int) % 16 ∧ b.val = k ∧
      1 ≤ k ∧ (k : Int) ≤ 16 ∧
      ((([] : Bytes).length : Int) % 16 = 0 → (k : Int) = 16) ∧
      Pad [] 16 = .ok ([] ++ List.replicate k b) ∧
      ∃ p, Pad [] 16 = .ok p ∧ 0 < p.length ∧ p.length % 16 = 0 ∧
        ([] : Bytes).length + 1 ≤ p.length :=
  Pad_spec [] 16 (by decide) (by decide)

/-! ## Buffers, maps and the library-independent steps -/

theorem written_self (l : Bytes) : written l l.length = l := by
  unfold written
  apply List.ext_getElem
  · simp
  · intro i h1 h2
    simp [List.getD_eq_getElem?_getD, List.getElem?_eq_getElem h2]

theorem written_length (out : Bytes) (n : Nat) : (written out n).length = n := by
  simp [written]

theorem written_of_length (out : Bytes) (n : Nat) (h : out.length = n) : written out n = out := by
  subst h
  exact written_self out

theorem CryptBlocks_make (out src : Bytes) (h : src.length % 16 = 0) :
    CryptBlocks out (makeBytes src.length) src = .ok (written out src.length) := by
  unfold CryptBlocks
  rw [if_neg (by simp [aesBlockSize, h]), if_neg (by simp [makeBytes])]
  congr 1
  unfold written
  simp only [makeBytes, List.length_replicate]
  apply List.map_congr_left
  intro i hi
  rw [if_pos (List.mem_range.mp hi)]

theorem aesNewCipher_ok (key : Bytes)
    (h : key.length = 16 ∨ key.length = 24 ∨ key.length = 32) : aesNewCipher key = .ok key := by
  unfold aesNewCipher
  rw [if_pos h]

theorem aesNewCipher_nil : aesNewCipher [] = .error (Err.keySize 0) := by
  simp [aesNewCipher]

theorem Pad_sixteen_length (data padded : Bytes) (h : Pad data 16 = .ok padded) :
    0 < padded.length ∧ padded.length % 16 = 0 ∧ data.length + 1 ≤ padded.length := by
  have hr : data.length % 16 < 16 := Nat.mod_lt _ (by decide)
  have h2 := Pad_sixteen data
  rw [h] at h2
  injection h2 with h2
  subst h2
  simp only [List.length_append, List.length_replicate]
  omega

/-- Well-sized input: `AESDecrypt` is `UnPad` of the decrypted buffer. -/
theorem AESDecrypt_sized (L : Lib) (ciphertext iv key : Bytes)
    (hkey : key.length = 16 ∨ key.length = 24 ∨ key.length = 32)
    (hiv : iv.length = 16) (hct : ciphertext.length % 16 = 0) :
    AESDecrypt L ciphertext iv key =
      match UnPad (written (L.cbcDecrypt key iv ciphertext) ciphertext.length) with
      | .panic => .panic
      | .ok plaintext => .ok (plaintext, none) := by
  unfold AESDecrypt
  rw [aesNewCipher_ok key hkey]
  simp only [aesBlockSize, hct, hiv, ne_eq, not_true_eq_false, if_false]
  rw [CryptBlocks_make _ _ hct]

/-- What a successful `AESEncrypt` returned. -/
theorem AESEncrypt_ok (L : Lib) (rng rng1 : L.Rng) (plaintext key ciphertext iv : Bytes)
    (h : AESEncrypt L rng plaintext key = .ok ((ciphertext, iv, none), rng1)) :
    (key.length = 16 ∨ key.length = 24 ∨ key.length = 32) ∧ iv.length = 16 ∧
    ∃ padded, Pad plaintext 16 = .ok padded ∧
      ciphertext = written (L.cbcEncrypt key iv padded) padded.length := by
  unfold AESEncrypt at h
  by_cases hkey : key.length = 16 ∨ key.length = 24 ∨ key.length = 32
  · rw [aesNewCipher_ok key hkey] at h
    have hpad := Pad_sixteen plaintext
    have hlen := Pad_sixteen_length plaintext _ hpad
    simp only [aesBlockSize, Nat.cast_ofNat] at h
    rw [hpad] at h
    simp only [RandomBytes] at h
    rcases hr : L.randRead rng 16 with ⟨_ | f, r⟩
    · simp [hr] at h
    · simp only [hr, List.length_map, List.length_range, ne_eq, not_true_eq_false,
        if_false] at h
      rw [CryptBlocks_make _ _ hlen.2.1] at h
      simp only [Outcome.ok.injEq, Prod.mk.injEq] at h
      obtain ⟨⟨hc, hi, -⟩, -⟩ := h
      refine ⟨hkey, by rw [← hi]; simp, _, hpad, ?_⟩
      rw [← hc, ← hi]
  · unfold aesNewCipher at h
    rw [if_neg hkey] at h
    simp at h

/-- Content-cipher round trip, for a library whose CBC decrypter undoes its
encrypter on whole blocks. -/
theorem AESDecrypt_AESEncrypt (L : Lib) (rng rng1 : L.Rng) (plaintext key ciphertext iv : Bytes)
    (hcbc : ∀ k v s : Bytes, v.length = 16 → s.length % 16 = 0 →
      (L.cbcEncrypt k v s).length = s.length ∧ L.cbcDecrypt k v (L.cbcEncrypt k v s) = s)
    (h : AESEncrypt L rng plaintext key = .ok ((ciphertext, iv, none), rng1)) :
    AESDecrypt L ciphertext iv key = .ok (plaintext, none) := by
  obtain ⟨hkey, hiv, padded, hpad, hct⟩ := AESEncrypt_ok L rng rng1 plaintext key ciphertext iv h
  have hlen := Pad_sixteen_length plaintext padded hpad
  obtain ⟨hl, hinv⟩ := hcbc key iv padded hiv hlen.2.1
  rw [written_of_length _ _ hl] at hct
  have hctlen : ciphertext.length = padded.length := by rw [hct, hl]
  rw [AESDecrypt_sized L ciphertext iv key hkey hiv (by rw [hctlen]; exact hlen.2.1)]
  rw [hct, hinv, hl, written_self]
  rw [UnPad_of_Pad_sixteen plaintext padded hpad]

theorem mapGet_mapSet_self (m : GoMap) (k v : Bytes) : mapGet (mapSet m k v) k = v := by
  induction m with
  | nil => simp [mapSet, mapGet]
  | cons p rest ih =>
    obtain ⟨k', v'⟩ := p
    by_cases hk : k' = k
    · simp [mapSet, mapGet, hk]
    · simp [mapSet, mapGet, hk, ih]

theorem mapGet_mapSet_ne (m : GoMap) (k v k2 : Bytes) (hne : k2 ≠ k) :
    mapGet (mapSet m k v) k2 = mapGet m k2 := by
  induction m with
  | nil => simp [mapSet, mapGet, Ne.symm hne]
  | cons p rest ih =>
    obtain ⟨k', v'⟩ := p
    by_cases hk : k' = k
    · subst hk
      simp [mapSet, mapGet, Ne.symm hne]
    · by_cases hk2 : k' = k2
      · subst hk2
        simp [mapSet, mapGet, hk]
      · simp [mapSet, mapGet, hk, hk2, ih]

theorem mapGet_of_not_mem (m : GoMap) (k : Bytes) (h : k ∉ mapKeys m) : mapGet m k = [] := by
  induction m with
  | nil => rfl
  | cons p rest ih =>
    obtain ⟨k', v'⟩ := p
    simp only [mapKeys, List.map_cons, List.mem_cons, not_or] at h
    simp only [mapGet]
    rw [if_neg (Ne.symm h.1)]
    exact ih h.2

theorem mem_mapKeys_mapSet (m : GoMap) (k v k2 : Bytes) :
    k2 ∈ mapKeys (mapSet m k v) ↔ k2 = k ∨ k2 ∈ mapKeys m := by
  induction m with
  | nil => simp [mapSet, mapKeys]
  | cons p rest ih =>
    obtain ⟨k', v'⟩ := p
    by_cases hk : k' = k
    · subst hk
      simp [mapSet, mapKeys]
    · simp only [mapSet, if_neg hk, mapKeys, List.map_cons, List.mem_cons]
      simp only [mapKeys] at ih
      rw [ih]
      tauto

theorem nodup_mapKeys_mapSet (m : GoMap) (k v : Bytes) (h : (mapKeys m).Nodup) :
    (mapKeys (mapSet m k v)).Nodup := by
  induction m with
  | nil => simp [mapSet, mapKeys]
  | cons p rest ih =>
    obtain ⟨k', v'⟩ := p
    simp only [mapKeys, List.map_cons, List.nodup_cons] at h
    by_cases hk : k' = k
    · subst hk
      simpa [mapSet, mapKeys] using h
    · simp only [mapSet, if_neg hk, mapKeys, List.map_cons, List.nodup_cons]
      refine ⟨?_, ih h.2⟩
      intro hmem
      have := (mem_mapKeys_mapSet rest k v k').mp hmem
      rcases this with h1 | h1
      · exact hk h1
      · exact h.1 h1

/-- One successful pass through the loop of `GroupEncrypt`: the key decoded to
an RSA key, the wrap succeeded, and the loop went on with the entry stored. -/
theorem loop_cons_ok (L : Lib) (key id pem : Bytes) (rest acc keys : GoMap) (rng : L.Rng)
    (h : GroupEncrypt.loop L key ((id, pem) :: rest) acc rng = .ok (.ok keys)) :
    ∃ pub c rng1, PemDecodeRSAPublic L pem = .ok (some pub, none) ∧
      L.encryptOAEP rng pub key = (some c, rng1) ∧
      GroupEncrypt.loop L key rest (mapSet acc id (Base64Encode L c)) rng1 = .ok (.ok keys) := by
  unfold GroupEncrypt.loop at h
  have hdec : ∀ r, PemDecodeRSAPublic L pem = .ok r → ∃ pub, r = (some pub, none) := by
    intro r hr
    unfold PemDecodeRSAPublic at hr
    split at hr
    · exact absurd hr (by simp)
    · split at hr
      · exact absurd hr (by simp)
      · exact absurd hr (by simp)
      · injection hr with hr
        exact ⟨_, hr.symm⟩
  rcases hp : PemDecodeRSAPublic L pem with r | _
  · obtain ⟨pub, rfl⟩ := hdec r hp
    rw [hp] at h
    simp only [RSAEncrypt] at h
    rcases he : L.encryptOAEP rng pub key with ⟨_ | c, rng1⟩
    · rw [he] at h
      simp at h
    · rw [he] at h
      exact ⟨pub, c, rng1, rfl, he, h⟩
  · rw [hp] at h
    simp at h

theorem loop_keys (L : Lib) (key : Bytes) (R : GoMap) :
    ∀ (acc keys : GoMap) (rng : L.Rng),
      GroupEncrypt.loop L key R acc rng = .ok (.ok keys) →
      (∀ id, id ∈ mapKeys keys ↔ id ∈ mapKeys acc ∨ id ∈ mapKeys R) ∧
      ((mapKeys acc).Nodup → (mapKeys keys).Nodup) := by
  induction R with
  | nil =>
    intro acc keys rng h
    simp only [GroupEncrypt.loop, Outcome.ok.injEq, Except.ok.injEq] at h
    subst h
    simp [mapKeys]
  | cons p rest ih =>
    intro acc keys rng h
    obtain ⟨id, pem⟩ := p
    obtain ⟨pub, c, rng1, -, -, hrest⟩ := loop_cons_ok L key id pem rest acc keys rng h
    obtain ⟨h1, h2⟩ := ih _ _ _ hrest
    refine ⟨?_, fun hn => h2 (nodup_mapKeys_mapSet _ _ _ hn)⟩
    intro k
    rw [h1 k, mem_mapKeys_mapSet]
    simp only [mapKeys, List.map_cons, List.mem_cons]
    tauto

theorem loop_get_of_not_mem (L : Lib) (key : Bytes) (R : GoMap) (id : Bytes) :
    ∀ (acc keys : GoMap) (rng : L.Rng),
      GroupEncrypt.loop L key R acc rng = .ok (.ok keys) → id ∉ mapKeys R →
      mapGet keys id = mapGet acc id := by
  induction R with
  | nil =>
    intro acc keys rng h _
    simp only [GroupEncrypt.loop, Outcome.ok.injEq, Except.ok.injEq] at h
    rw [h]
  | cons p rest ih =>
    intro acc keys rng h hid
    obtain ⟨id2, pem⟩ := p
    simp only [mapKeys, List.map_cons, List.mem_cons, not_or] at hid
    obtain ⟨pub, c, rng1, -, -, hrest⟩ := loop_cons_ok L key id2 pem rest acc keys rng h
    rw [ih _ _ _ hrest hid.2, mapGet_mapSet_ne _ _ _ _ hid.1]

/-- Every entry the loop visited is stored as the encoding of a wrap of the
content key under the key its PEM string decodes to. -/
theorem loop_get_mem (L : Lib) (key : Bytes) (R : GoMap) (id pem : Bytes) :
    ∀ (acc keys : GoMap) (rng : L.Rng),
      GroupEncrypt.loop L key R acc rng = .ok (.ok keys) → (mapKeys R).Nodup →
      (id, pem) ∈ R →
      ∃ pub c r r1, PemDecodeRSAPublic L pem = .ok (some pub, none) ∧
        L.encryptOAEP r pub key = (some c, r1) ∧ mapGet keys id = Base64Encode L c := by
  induction R with
  | nil =>
    intro acc keys rng _ _ hmem
    simp at hmem
  | cons p rest ih =>
    intro acc keys rng h hnd hmem
    obtain ⟨id2, pem2⟩ := p
    simp only [mapKeys, List.map_cons, List.nodup_cons] at hnd
    obtain ⟨pub, c, rng1, hdec, henc, hrest⟩ := loop_cons_ok L key id2 pem2 rest acc keys rng h
    rcases List.mem_cons.mp hmem with heq | hin
    · injection heq with h1 h2
      subst h1 h2
      refine ⟨pub, c, rng, rng1, hdec, henc, ?_⟩
      rw [loop_get_of_not_mem L key rest id _ _ _ hrest hnd.1, mapGet_mapSet_self]
    · exact ih _ _ _ hrest hnd.2 hin

/-- What a call of `GroupEncrypt` that returned an artifact did. -/
theorem GroupEncrypt_ok (L : Lib) (rng : L.Rng) (P : Bytes) (R : GoMap) (E : Encrypted)
    (err : Option Err) (h : GroupEncrypt L rng P R = .ok (some E, err)) :
    ∃ (key ciphertext iv : Bytes) (rng1 rng2 : L.Rng) (keys : GoMap),
      AESEncrypt L rng1 P key = .ok ((ciphertext, iv, none), rng2) ∧
      GroupEncrypt.loop L key R [] rng2 = .ok (.ok keys) ∧
      E = { Ciphertext := Base64Encode L ciphertext, Mode := modeTag,
            Inputs := [(ivName, Base64Encode L iv)], Keys := keys } ∧
      err = none := by
  unfold GroupEncrypt at h
  simp only at h
  rcases hr : RandomBytes L rng 32 with ⟨⟨key, e0⟩, rng1⟩
  rw [hr] at h
  simp only at h
  rcases ha : AESEncrypt L rng1 P key with ⟨⟨ciphertext, iv, _ | e1⟩, rng2⟩ | _
  · rw [ha] at h
    simp only at h
    rcases hl : GroupEncrypt.loop L key R [] rng2 with (e2 | keys) | _
    · rw [hl] at h
      simp at h
    · rw [hl] at h
      simp only [Outcome.ok.injEq, Prod.mk.injEq, Option.some.injEq] at h
      exact ⟨key, ciphertext, iv, rng1, rng2, keys, ha, hl, by rw [← h.1]; rfl, h.2.symm⟩
    · rw [hl] at h
      simp at h
  · rw [ha] at h
    simp at h
  · rw [ha] at h
    simp at h

theorem mapKeys_recipientsMap (L : Lib) (R : List (Bytes × L.Priv)) :
    mapKeys (recipientsMap L R) = R.map Prod.fst := by
  simp [mapKeys, recipientsMap, List.map_map, Function.comp_def]

/-- C10. Artifact shape: when `GroupEncrypt` returns an artifact (in a library
whose base64 decoder undoes its encoder), its `Mode` is "aes-cbc-256+rsa", its
`Inputs` hold exactly one entry, "iv", which decodes to exactly 16 bytes, the
identifiers of `Keys` are exactly those of the recipients map, each once, and
`Ciphertext` decodes to a positive multiple of 16 bytes. -/
theorem GroupEncrypt_shape (L : Lib) (rng : L.Rng) (P : Bytes) (R : GoMap) (E : Encrypted)
    (err : Option Err)
    (hb64 : ∀ b, L.b64Decode (L.b64Encode b) = (b, none))
    (h : GroupEncrypt L rng P R = .ok (some E, err)) :
    E.Mode = modeTag ∧
    (∃ v, E.Inputs = [(ivName, v)]) ∧
    (∃ iv, Base64Decode L (mapGet E.Inputs ivName) = (iv, none) ∧ iv.length = 16) ∧
    (∀ id, id ∈ mapKeys E.Keys ↔ id ∈ mapKeys R) ∧ (mapKeys E.Keys).Nodup ∧
    (∃ ct, Base64Decode L E.Ciphertext = (ct, none) ∧ 0 < ct.length ∧ ct.length % 16 = 0) := by
  obtain ⟨key, ciphertext, iv, rng1, rng2, keys, ha, hl, hE, -⟩ := GroupEncrypt_ok L rng P R E err h
  obtain ⟨-, hiv, padded, hpad, hct⟩ := AESEncrypt_ok L rng1 rng2 P key ciphertext iv ha
  have hlen := Pad_sixteen_length P padded hpad
  obtain ⟨hk1, hk2⟩ := loop_keys L key R [] keys rng2 hl
  subst hE
  refine ⟨rfl, ⟨_, rfl⟩, ⟨iv, ?_, hiv⟩, ?_, hk2 (by simp [mapKeys]), ⟨ciphertext, ?_, ?_, ?_⟩⟩
  · simp only [mapGet, if_true, Base64Decode, Base64Encode]
    exact hb64 iv
  · intro id
    rw [hk1 id]
    simp [mapKeys]
  · exact hb64 ciphertext
  · rw [hct, written_length]; exact hlen.1
  · rw [hct, written_length]; exact hlen.2.1

theorem PemDecodeRSAPublic_encode (L : Lib) (k : L.Pub)
    (hpem : ∀ blk : Block, blk.type = privateType ∨ blk.type = publicType →
      L.pemDecode (L.pemEncode blk) = some blk)
    (hpkix : L.parsePKIX (L.marshalPKIX k) = some (PKIXKey.rsa k)) :
    PemDecodeRSAPublic L (PemEncodeRSAPublic L k) = .ok (some k, none) := by
  unfold PemDecodeRSAPublic PemEncodeRSAPublic
  simp only [hpem ⟨publicType, L.marshalPKIX k⟩ (Or.inr rfl), hpkix]

theorem PemDecodeRSAPrivate_encode (L : Lib) (k : L.Priv)
    (hpem : ∀ blk : Block, blk.type = privateType ∨ blk.type = publicType →
      L.pemDecode (L.pemEncode blk) = some blk)
    (hpkcs1 : L.parsePKCS1 (L.marshalPKCS1 k) = some k) :
    PemDecodeRSAPrivate L (PemEncodeRSAPrivate L k) = .ok (some k, none) := by
  unfold PemDecodeRSAPrivate PemEncodeRSAPrivate
  simp only [hpem ⟨privateType, L.marshalPKCS1 k⟩ (Or.inl rfl), hpkcs1]

/-- C1. Round trip: let the recipients map give every identifier of `R` (each
once) the `PemEncodeRSAPublic` encoding of the public key of its keypair, in a
library whose decoders undo their encoders (base64, PEM, PKIX and PKCS1), whose
RSA-OAEP decryption undoes encryption under the recipients' keypairs and whose
CBC decryption undoes encryption under the same key and IV. If `GroupEncrypt`
returns the artifact `E` for the plaintext `P`, then for every recipient
`GroupDecrypt` of `E` with its identifier and the `PemEncodeRSAPrivate` encoding
of its private key returns exactly `P` and no error. -/
theorem GroupDecrypt_GroupEncrypt (L : Lib) (rng : L.Rng) (P : Bytes)
    (R : List (Bytes × L.Priv)) (E : Encrypted)
    (hnd : (R.map Prod.fst).Nodup)
    (hb64 : ∀ b, L.b64Decode (L.b64Encode b) = (b, none))
    (hpem : ∀ blk : Block, blk.type = privateType ∨ blk.type = publicType →
      L.pemDecode (L.pemEncode blk) = some blk)
    (hpkix : ∀ r ∈ R,
      L.parsePKIX (L.marshalPKIX (L.publicOf r.2)) = some (PKIXKey.rsa (L.publicOf r.2)))
    (hpkcs1 : ∀ r ∈ R, L.parsePKCS1 (L.marshalPKCS1 r.2) = some r.2)
    (hoaep : ∀ r ∈ R, ∀ (s s1 : L.Rng) (m c : Bytes),
      L.encryptOAEP s (L.publicOf r.2) m = (some c, s1) → L.decryptOAEP r.2 c = some m)
    (hcbc : ∀ k v s : Bytes, v.length = 16 → s.length % 16 = 0 →
      (L.cbcEncrypt k v s).length = s.length ∧ L.cbcDecrypt k v (L.cbcEncrypt k v s) = s)
    (henc : GroupEncrypt L rng P (recipientsMap L R) = .ok (some E, none)) :
    ∀ r ∈ R, GroupDecrypt L E r.1 (PemEncodeRSAPrivate L r.2) = .ok (P, none) := by
  intro r hr
  obtain ⟨key, ciphertext, iv, rng1, rng2, keys, ha, hl, hE, -⟩ :=
    GroupEncrypt_ok L rng P _ E none henc
  have hmem : (r.1, PemEncodeRSAPublic L (L.publicOf r.2)) ∈ recipientsMap L R :=
    List.mem_map.mpr ⟨r, hr, rfl⟩
  obtain ⟨pub, c, s, s1, hdec, hwrap, hget⟩ :=
    loop_get_mem L key (recipientsMap L R) r.1 _ [] keys rng2 hl
      (by rw [mapKeys_recipientsMap]; exact hnd) hmem
  rw [PemDecodeRSAPublic_encode L _ hpem (hpkix r hr)] at hdec
  simp only [Outcome.ok.injEq, Prod.mk.injEq, Option.some.injEq, and_true] at hdec
  subst hdec
  have hkey := hoaep r hr s s1 key c hwrap
  have haes := AESDecrypt_AESEncrypt L rng1 rng2 P key ciphertext iv hcbc ha
  subst hE
  unfold GroupDecrypt
  simp only [ne_eq, not_true_eq_false, if_false, Base64Decode, Base64Encode, mapGet, if_true]
  simp only [Base64Encode] at hget
  rw [hget, hb64, hb64, hb64, PemDecodeRSAPrivate_encode L _ hpem (hpkcs1 r hr)]
  simp only [RSADecrypt, hkey, haes]

/-! ## Failure paths -/

/-- C5. Mode guard: on an artifact whose `Mode` is not "aes-cbc-256+rsa",
`GroupDecrypt` returns the empty string and the error "Invalid mode", whatever
the identifier, the private-key string, the other fields and the library; the
result is a function of `Mode` alone. -/
theorem GroupDecrypt_mode_guard (L : Lib) (E : Encrypted) (id pem : Bytes)
    (h : E.Mode ≠ modeTag) :
    GroupDecrypt L E id pem = .ok ([], some (Err.invalidMode E.Mode)) := by
  unfold GroupDecrypt
  rw [if_pos h]

/-- When `RSADecrypt` returns an error its key is the `nil` slice, which
`aes.NewCipher` refuses: `GroupDecrypt` returns that key-size error. -/
theorem GroupDecrypt_of_unwrap_error (L : Lib) (E : Encrypted) (id pem key : Bytes)
    (privateKey : Option L.Priv) (e0 : Option Err) (e : Err)
    (hmode : E.Mode = modeTag)
    (hpriv : PemDecodeRSAPrivate L pem = .ok (privateKey, e0))
    (hfail : RSADecrypt L (Base64Decode L (mapGet E.Keys id)).1 privateKey = .ok (key, some e)) :
    GroupDecrypt L E id pem = .ok ([], some (Err.keySize 0)) := by
  have hkey : key = [] := by
    unfold RSADecrypt at hfail
    split at hfail
    · exact absurd hfail (by simp)
    · split at hfail
      · simp only [Outcome.ok.injEq, Prod.mk.injEq] at hfail
        exact hfail.1.symm
      · simp at hfail
  subst hkey
  unfold GroupDecrypt
  rw [if_neg (by simp [hmode]), hpriv]
  simp only [hfail]
  simp [AESDecrypt, aesNewCipher_nil]

/-- C9. Unwrap failures are surfaced: for an artifact with the recognised
`Mode`, an identifier present in `Keys` and a private-key string that
`PemDecodeRSAPrivate` decodes, if `RSADecrypt` of the recipient's decoded
wrapped key returns an error, then `GroupDecrypt` returns an error (the AES
key-size error for the empty key) and the empty string, not a plaintext. -/
theorem GroupDecrypt_unwrap_failure (L : Lib) (E : Encrypted) (id pem key : Bytes)
    (privateKey : Option L.Priv) (e0 : Option Err) (e : Err)
    (hmode : E.Mode = modeTag) (_hid : id ∈ mapKeys E.Keys)
    (hpriv : PemDecodeRSAPrivate L pem = .ok (privateKey, e0))
    (hfail : RSADecrypt L (Base64Decode L (mapGet E.Keys id)).1 privateKey = .ok (key, some e)) :
    GroupDecrypt L E id pem = .ok ([], some (Err.keySize 0)) :=
  GroupDecrypt_of_unwrap_error L E id pem key privateKey e0 e hmode hpriv hfail

/-- The outcome of `GroupDecrypt` is a function of the bytes the three
`Base64Decode` calls return; their errors play no part. -/
theorem GroupDecrypt_congr (L : Lib) (E E2 : Encrypted) (id pem : Bytes)
    (hmode : E2.Mode = E.Mode)
    (hc : (Base64Decode L E2.Ciphertext).1 = (Base64Decode L E.Ciphertext).1)
    (hi : (Base64Decode L (mapGet E2.Inputs ivName)).1 =
      (Base64Decode L (mapGet E.Inputs ivName)).1)
    (hk : (Base64Decode L (mapGet E2.Keys id)).1 = (Base64Decode L (mapGet E.Keys id)).1) :
    GroupDecrypt L E2 id pem = GroupDecrypt L E id pem := by
  unfold GroupDecrypt
  rw [hmode, hc, hi, hk]

/-- C4 (the code at the failing input). Let `GroupDecrypt` return the plaintext
`P` without error on `E`, and let `E2` be `E` with `Ciphertext` replaced by a
string that is not valid base64 but whose decoding returns, with its error, the
same bytes. Then `GroupDecrypt` returns `P` without error on `E2` too. -/
theorem GroupDecrypt_corrupt_ciphertext (L : Lib) (E : Encrypted) (id pem s P : Bytes) (e : Err)
    (hok : GroupDecrypt L E id pem = .ok (P, none))
    (hbytes : (Base64Decode L s).1 = (Base64Decode L E.Ciphertext).1)
    (_herr : (Base64Decode L s).2 = some e) :
    GroupDecrypt L { E with Ciphertext := s } id pem = .ok (P, none) := by
  rw [← hok]
  exact GroupDecrypt_congr L E _ id pem rfl hbytes rfl rfl

/-- C3 (amended). For an artifact with the recognised `Mode` and an identifier
that is not a key of `Keys`, `GroupDecrypt` makes no lookup check: it returns
what it returns on the artifact in which the identifier maps to the empty
string. When the private-key string decodes to a key and RSA-OAEP unwrapping of
the decoded empty string fails, that is the AES key-size error for the empty key
together with the empty string. -/
theorem GroupDecrypt_absent_recipient (L : Lib) (E : Encrypted) (id pem : Bytes)
    (hmode : E.Mode = modeTag) (habs : id ∉ mapKeys E.Keys) :
    GroupDecrypt L E id pem = GroupDecrypt L { E with Keys := mapSet E.Keys id [] } id pem ∧
    ∀ k, PemDecodeRSAPrivate L pem = .ok (some k, none) →
      L.decryptOAEP k (Base64Decode L []).1 = none →
      GroupDecrypt L E id pem = .ok ([], some (Err.keySize 0)) := by
  have hget : mapGet E.Keys id = [] := mapGet_of_not_mem _ _ habs
  constructor
  · symm
    apply GroupDecrypt_congr L E { E with Keys := mapSet E.Keys id [] } id pem rfl rfl rfl
    simp only [mapGet_mapSet_self, hget]
  · intro k hk hun
    apply GroupDecrypt_of_unwrap_error L E id pem [] (some k) none Err.oaepDecrypt hmode hk
    rw [hget]
    simp only [RSADecrypt, hun]

/-- C8 (the code on well-sized input). For a key of valid AES length, a 16-byte
IV and a ciphertext of whole blocks, `AESDecrypt` never returns an error: it
panics exactly when the decrypted data has no final byte or a final byte larger
than its length, and otherwise returns a plaintext. On the empty ciphertext it
panics. -/
theorem AESDecrypt_wellsized (L : Lib) (ciphertext iv key : Bytes)
    (hkey : key.length = 16 ∨ key.length = 24 ∨ key.length = 32)
    (hiv : iv.length = 16) (hct : ciphertext.length % 16 = 0) :
    (AESDecrypt L ciphertext iv key = .panic ↔
      ((written (L.cbcDecrypt key iv ciphertext) ciphertext.length).getLast? = none ∨
       ∃ b, (written (L.cbcDecrypt key iv ciphertext) ciphertext.length).getLast? = some b ∧
         (written (L.cbcDecrypt key iv ciphertext) ciphertext.length).length < b.val)) ∧
    (∀ p e, AESDecrypt L ciphertext iv key ≠ .ok (p, some e)) ∧
    (ciphertext = [] → AESDecrypt L ciphertext iv key = .panic) := by
  rw [AESDecrypt_sized L ciphertext iv key hkey hiv hct]
  refine ⟨?_, ?_, ?_⟩
  · generalize written (L.cbcDecrypt key iv ciphertext) ciphertext.length = D
    unfold UnPad
    rcases hl : D.getLast? with _ | b
    · simp
    · by_cases hb : D.length < b.val
      · simp [hb]
      · simp [hb]
  · intro p e
    rcases UnPad (written (L.cbcDecrypt key iv ciphertext) ciphertext.length) with q | _
    · simp
    · simp
  · intro hc
    subst hc
    rfl

theorem PemDecodeRSAPublic_undecodable (L : Lib) (s : Bytes)
    (hbad : ∀ b, L.pemDecode s = some b → ∀ k, L.parsePKIX b.bytes ≠ some (PKIXKey.rsa k)) :
    PemDecodeRSAPublic L s = .panic := by
  unfold PemDecodeRSAPublic
  split
  · rfl
  · next b hb =>
    split
    · rfl
    · rfl
    · next k hk => exact absurd hk (hbad b hb k)

theorem loop_mem_decodes (L : Lib) (key : Bytes) (R : GoMap) (id pem : Bytes) :
    ∀ (acc keys : GoMap) (rng : L.Rng),
      GroupEncrypt.loop L key R acc rng = .ok (.ok keys) → (id, pem) ∈ R →
      ∃ pub, PemDecodeRSAPublic L pem = .ok (some pub, none) := by
  induction R with
  | nil =>
    intro acc keys rng _ hmem
    simp at hmem
  | cons p rest ih =>
    intro acc keys rng h hmem
    obtain ⟨id2, pem2⟩ := p
    obtain ⟨pub, c, rng1, hdec, -, hrest⟩ := loop_cons_ok L key id2 pem2 rest acc keys rng h
    rcases List.mem_cons.mp hmem with heq | hin
    · injection heq with h1 h2
      subst h1 h2
      exact ⟨pub, hdec⟩
    · exact ih _ _ _ hrest hin

/-- With a key of valid length and a working entropy source, `AESEncrypt`
returns a ciphertext and an IV. -/
theorem AESEncrypt_run (L : Lib) (rng rng2 : L.Rng) (P key : Bytes) (g : Nat → Byte)
    (hkey : key.length = 16 ∨ key.length = 24 ∨ key.length = 32)
    (hr : L.randRead rng 16 = (some g, rng2)) :
    ∃ ct iv, AESEncrypt L rng P key = .ok ((ct, iv, none), rng2) := by
  have hlen := Pad_sixteen_length P _ (Pad_sixteen P)
  unfold AESEncrypt
  rw [aesNewCipher_ok key hkey]
  simp only [aesBlockSize, Nat.cast_ofNat]
  rw [Pad_sixteen]
  simp only [RandomBytes, hr, List.length_map, List.length_range, ne_eq, not_true_eq_false,
    if_false]
  rw [CryptBlocks_make _ _ hlen.2.1]
  exact ⟨_, _, rfl⟩

/-- C2 (the code at the failing input). Let the PEM string `s` of a recipient
hold no PEM block, or a block whose bytes do not parse as a PKIX RSA public
key. With a working entropy source, `GroupEncrypt` panics when that recipient
is the first one visited; and wherever the recipient stands in the map,
`GroupEncrypt` returns no artifact. -/
theorem GroupEncrypt_undecodable_key (L : Lib) (rng rng1 rng2 : L.Rng) (P id s : Bytes)
    (rest : GoMap) (f g : Nat → Byte)
    (hbad : ∀ b, L.pemDecode s = some b → ∀ k, L.parsePKIX b.bytes ≠ some (PKIXKey.rsa k))
    (hr1 : L.randRead rng 32 = (some f, rng1))
    (hr2 : L.randRead rng1 16 = (some g, rng2)) :
    GroupEncrypt L rng P ((id, s) :: rest) = .panic ∧
    ∀ (front : GoMap) (E : Encrypted) (e : Option Err),
      GroupEncrypt L rng P (front ++ (id, s) :: rest) ≠ .ok (some E, e) := by
  have hpanic := PemDecodeRSAPublic_undecodable L s hbad
  constructor
  · obtain ⟨ct, iv, ha⟩ := AESEncrypt_run L rng1 rng2 P ((List.range 32).map f) g
      (by simp) hr2
    unfold GroupEncrypt
    simp only [RandomBytes, hr1, ha]
    unfold GroupEncrypt.loop
    rw [hpanic]
  · intro front E e h
    obtain ⟨key, ciphertext, iv, r1, r2, keys, -, hl, -, -⟩ := GroupEncrypt_ok L rng P _ E e h
    obtain ⟨pub, hdec⟩ := loop_mem_decodes L key _ id s [] keys r2 hl (by simp)
    rw [hpanic] at hdec
    exact absurd hdec (by simp)

/-! ## The library instance satisfies the laws used above -/

theorem demo_b64 (b : Bytes) : demoLib.b64Decode (demoLib.b64Encode b) = (b, none) := by
  show demoDecode (demoEncode b) = (b, none)
  induction b with
  | nil => rfl
  | cons x rest ih => simp [demoEncode, demoDecode, ih]

theorem demo_pem (blk : Block) (h : blk.type = privateType ∨ blk.type = publicType) :
    demoLib.pemDecode (demoLib.pemEncode blk) = some blk := by
  obtain ⟨t, der⟩ := blk
  rcases h with h | h
  · simp only at h
    subst h
    rfl
  · simp only at h
    subst h
    rfl

theorem demo_oaep (k : Byte) (s s1 : Nat) (m c : Bytes)
    (h : demoLib.encryptOAEP s (demoLib.publicOf k) m = (some c, s1)) :
    demoLib.decryptOAEP k c = some m := by
  change demoWrap s k m = (some c, s1) at h
  show demoUnwrap k c = some m
  unfold demoWrap at h
  split at h
  · simp at h
  · simp only [Prod.mk.injEq, Option.some.injEq] at h
    rw [← h.1]
    simp [demoUnwrap]

theorem demo_cbc (k v s : Bytes) :
    (demoLib.cbcEncrypt k v s).length = s.length ∧
    demoLib.cbcDecrypt k v (demoLib.cbcEncrypt k v s) = s := by
  constructor
  · show (s.map _).length = s.length
    simp
  · show (s.map _).map _ = s
    simp [List.map_map, Function.comp_def]

theorem demo_pkix (k : Byte) :
    demoLib.parsePKIX (demoLib.marshalPKIX k) = some (PKIXKey.rsa k) := by
  show demoParsePKIX [k, k] = some (PKIXKey.rsa k)
  simp [demoParsePKIX]

theorem demo_pemDecode_nil (b : Block) : demoLib.pemDecode [] ≠ some b := by
  intro h
  cases h

/-! ## The theorems at concrete inputs -/

/-- The round trip at a concrete input: "hi" encrypted for "a" and "b" in
`demoLib`, decrypted by each of them. -/
theorem GroupDecrypt_GroupEncrypt_witness :
    GroupEncrypt demoLib (0 : Nat) demoPlain (recipientsMap demoLib demoRecipients)
      = .ok (some demoArtifact, none) ∧
    GroupDecrypt demoLib demoArtifact idA (PemEncodeRSAPrivate demoLib (7 : Byte))
      = .ok (demoPlain, none) ∧
    GroupDecrypt demoLib demoArtifact idB (PemEncodeRSAPrivate demoLib (9 : Byte))
      = .ok (demoPlain, none) :=
  have h := GroupDecrypt_GroupEncrypt demoLib (0 : Nat) demoPlain demoRecipients demoArtifact
    (by decide) demo_b64 demo_pem (fun r _ => demo_pkix r.2) (fun _ _ => rfl)
    (fun r _ s s1 m c hw => demo_oaep r.2 s s1 m c hw)
    (fun k v s _ _ => demo_cbc k v s) (by decide)
  ⟨by decide, h (idA, (7 : Byte)) (List.mem_cons_self _ _),
    h (idB, (9 : Byte)) (List.mem_cons_of_mem _ (List.mem_cons_self _ _))⟩

/-- The artifact shape at a concrete input: the artifact for "hi", "a" and "b" in `demoLib`. -/
theorem GroupEncrypt_shape_witness :
    demoArtifact.Mode = modeTag ∧
    (∃ v, demoArtifact.Inputs = [(ivName, v)]) ∧
    (∃ iv, Base64Decode demoLib (mapGet demoArtifact.Inputs ivName) = (iv, none) ∧
      iv.length = 16) ∧
    (∀ id, id ∈ mapKeys demoArtifact.Keys ↔ id ∈ mapKeys (recipientsMap demoLib demoRecipients)) ∧
    (mapKeys demoArtifact.Keys).Nodup ∧
    (∃ ct, Base64Decode demoLib demoArtifact.Ciphertext = (ct, none) ∧ 0 < ct.length ∧
      ct.length % 16 = 0) :=
  GroupEncrypt_shape demoLib (0 : Nat) demoPlain (recipientsMap demoLib demoRecipients)
    demoArtifact none demo_b64 (by decide)

/-- An undecodable key at a concrete input: the recipient "a" with the empty
string as its public key. -/
theorem GroupEncrypt_undecodable_key_witness :
    GroupEncrypt demoLib (0 : Nat) demoPlain [(idA, [])] = .panic ∧
    GroupEncrypt demoLib (0 : Nat) demoPlain [(idB, [2, 9, 9]), (idA, [])]
      ≠ .ok (some demoArtifact, none) :=
  have h := GroupEncrypt_undecodable_key demoLib (0 : Nat) (32 : Nat) (48 : Nat) demoPlain idA []
    [] (fun i => toByte ((0 + i : Nat) : Int)) (fun i => toByte ((32 + i : Nat) : Int))
    (fun b hb => absurd hb (demo_pemDecode_nil b)) rfl rfl
  ⟨h.1, h.2 [(idB, [2, 9, 9])] demoArtifact none⟩

/-- C3 (counterexample). The artifact for "hi" has the recognised `Mode` and no
entry for "c". Asked to decrypt for "c", `GroupDecrypt` does not stop at the
lookup: with the empty private-key string it panics in `PemDecodeRSAPrivate`,
and with the private key of "a" it returns the key-size error of
`aes.NewCipher`, reached after decoding and unwrapping the empty string. -/
theorem GroupDecrypt_absent_recipient_counterexample :
    demoArtifact.Mode = modeTag ∧ idC ∉ mapKeys demoArtifact.Keys ∧
    GroupDecrypt demoLib demoArtifact idC [] = .panic ∧
    GroupDecrypt demoLib demoArtifact idC (PemEncodeRSAPrivate demoLib (7 : Byte))
      = .ok ([], some (Err.keySize 0)) := by
  decide

/-- The absent recipient at a concrete input: the identifier "c" and the
private key of "a". -/
theorem GroupDecrypt_absent_recipient_witness :
    GroupDecrypt demoLib demoArtifact idC (PemEncodeRSAPrivate demoLib (7 : Byte)) =
      GroupDecrypt demoLib { demoArtifact with Keys := mapSet demoArtifact.Keys idC [] } idC
        (PemEncodeRSAPrivate demoLib (7 : Byte)) ∧
    GroupDecrypt demoLib demoArtifact idC (PemEncodeRSAPrivate demoLib (7 : Byte))
      = .ok ([], some (Err.keySize 0)) :=
  have h := GroupDecrypt_absent_recipient demoLib demoArtifact idC
    (PemEncodeRSAPrivate demoLib (7 : Byte)) (by decide) (by decide)
  ⟨h.1, h.2 (7 : Byte) rfl rfl⟩

/-- A corrupt ciphertext at a concrete input: the artifact for "hi" with
"!" appended to its `Ciphertext`, decrypted by "a". -/
theorem GroupDecrypt_corrupt_ciphertext_witness :
    (Base64Decode demoLib (demoArtifact.Ciphertext ++ [33])).2 = some Err.base64 ∧
    GroupDecrypt demoLib { demoArtifact with Ciphertext := demoArtifact.Ciphertext ++ [33] } idA
      (PemEncodeRSAPrivate demoLib (7 : Byte)) = .ok (demoPlain, none) :=
  ⟨by decide, GroupDecrypt_corrupt_ciphertext demoLib demoArtifact idA
    (PemEncodeRSAPrivate demoLib (7 : Byte)) (demoArtifact.Ciphertext ++ [33]) demoPlain
    Err.base64 (by decide) (by decide) (by decide)⟩

/-- The mode guard at a concrete input: the artifact for "hi" with an empty `Mode`. -/
theorem GroupDecrypt_mode_guard_witness :
    GroupDecrypt demoLib { demoArtifact with Mode := [] } idA []
      = .ok ([], some (Err.invalidMode [])) :=
  GroupDecrypt_mode_guard demoLib { demoArtifact with Mode := [] } idA [] (by decide)

/-- Well-sized decryption at concrete inputs: the empty ciphertext, and one block
whose decrypted final byte is 224. -/
theorem AESDecrypt_wellsized_witness :
    AESDecrypt demoLib [] demoIV demoKey = .panic ∧
    AESDecrypt demoLib (List.replicate 16 0) demoIV demoKey = .panic :=
  ⟨(AESDecrypt_wellsized demoLib [] demoIV demoKey (by decide) (by decide) (by decide)).2.2 rfl,
   (AESDecrypt_wellsized demoLib (List.replicate 16 0) demoIV demoKey (by decide) (by decide)
      (by decide)).1.mpr (Or.inr ⟨224, by decide, by decide⟩)⟩

/-- A failed unwrap at a concrete input: the wrapped key of "a" and the
private key of "b". -/
theorem GroupDecrypt_unwrap_failure_witness :
    GroupDecrypt demoLib demoArtifact idA (PemEncodeRSAPrivate demoLib (9 : Byte))
      = .ok ([], some (Err.keySize 0)) :=
  GroupDecrypt_unwrap_failure demoLib demoArtifact idA (PemEncodeRSAPrivate demoLib (9 : Byte))
    [] (some (9 : Byte)) none Err.oaepDecrypt (by decide) (by decide) rfl rfl

end Crypto
